import Mathlib

/-!
Verification of the Keplerian-orbit library in `src/kepler/src/lib.rs`.

The Rust code works on `f64`; we embed it over the real numbers `ℝ`
(the spec's own round-trip and composition properties are phrased over
reals), keeping the control flow, the constants and the exact arithmetic
expressions of the source.  Rust's `%` on `f64` (remainder with the sign
of the dividend, truncated division) is modelled by `rrem`, `f64::hypot`
by `hypot`, and `f64::atan2` by `atan2` via `Complex.arg`.
-/

noncomputable section

open Real
open Classical

/-- Truncation toward zero, as an integer: the rounding used by Rust's
`%` operator on `f64`. -/
def rtrunc (r : ℝ) : ℤ := if 0 ≤ r then ⌊r⌋ else ⌈r⌉

/-- Rust `x % y` on `f64`: `x - y * trunc (x / y)`, the remainder carrying
the sign of the dividend. -/
def rrem (x y : ℝ) : ℝ := x - y * (rtrunc (x / y) : ℝ)

/-- `f64::hypot`: `sqrt (x*x + y*y)`. -/
def hypot (x y : ℝ) : ℝ := Real.sqrt (x * x + y * y)

/-- `f64::atan2`: `y.atan2 x` is the angle of the point `(x, y)`,
embedded as the argument of the complex number `x + y*I`. -/
def atan2 (y x : ℝ) : ℝ := Complex.arg ⟨x, y⟩

/-- `rot_x` from `lib.rs`: polar-form rotation about the x axis.
`r = y.hypot(z)`, `theta = z.atan2(y) + angle`, result
`(x, r*cos theta, r*sin theta)`. -/
def rot_x (pos : ℝ × ℝ × ℝ) (angle : ℝ) : ℝ × ℝ × ℝ :=
  let r := hypot pos.2.1 pos.2.2
  let theta := atan2 pos.2.2 pos.2.1 + angle
  (pos.1, r * Real.cos theta, r * Real.sin theta)

/-- `rot_y` from `lib.rs`: `r = x.hypot(z)`, `theta = x.atan2(z) + angle`,
result `z = r*cos theta`, `x = r*sin theta`, `y` unchanged. -/
def rot_y (pos : ℝ × ℝ × ℝ) (angle : ℝ) : ℝ × ℝ × ℝ :=
  let r := hypot pos.1 pos.2.2
  let theta := atan2 pos.1 pos.2.2 + angle
  (r * Real.sin theta, pos.2.1, r * Real.cos theta)

/-- `rot_z` from `lib.rs`: `r = x.hypot(y)`, `theta = y.atan2(x) + angle`,
result `x = r*cos theta`, `y = r*sin theta`, `z` unchanged. -/
def rot_z (pos : ℝ × ℝ × ℝ) (angle : ℝ) : ℝ × ℝ × ℝ :=
  let r := hypot pos.1 pos.2.1
  let theta := atan2 pos.2.1 pos.1 + angle
  (r * Real.cos theta, r * Real.sin theta, pos.2.2)

/-- The `Orbit` struct of `lib.rs`.  In Rust all seven fields are `pub`. -/
structure Orbit where
  e : ℝ
  a : ℝ
  b : ℝ
  i : ℝ
  o : ℝ
  w : ℝ
  t0 : ℝ

/-- The associated function `Orbit::b(e, a) = a*(1.0-e*e).sqrt()` of
`lib.rs` (named `bOf` here because `b` is taken by the field). -/
def Orbit.bOf (e a : ℝ) : ℝ := a * Real.sqrt (1 - e * e)

/-- `Orbit::new`: stores the six elements and caches `b = Orbit::b(e, a)`. -/
def Orbit.new (e a i o w t0 : ℝ) : Orbit :=
  { e := e, a := a, b := Orbit.bOf e a, i := i, o := o, w := w, t0 := t0 }

/-- `PRECISION` constant of `Orbit::E`. -/
def PRECISION : ℝ := 9e-16

/-- `MAX_ITER` constant of `Orbit::E`. -/
def MAX_ITER : ℕ := 100

/-- The divisor `1.0 - e*E.cos()` of the Newton-style step in `Orbit::E`
(`step_mult` is its reciprocal). -/
def Ediv (e E : ℝ) : ℝ := 1 - e * Real.cos E

/-- The non-converged update of `Orbit::E`:
`E = E + step_mult*(E_next - E) % 1.4` with
`step_mult = 1.0/(1.0 - e*E.cos())` and `E_next = M + e*E.sin()`
(in Rust, `%` binds like `*`, so the remainder applies to the product). -/
def Eupd (e M E : ℝ) : ℝ :=
  E + rrem ((1 / Ediv e E) * ((M + e * Real.sin E) - E)) 1.4

/-- The iteration loop of `Orbit::E`, by fuel.  The first component is the
value the Rust function returns: `E_next` on convergence, the current
iterate `E` once the fuel (loop counter) runs out.  The second and third
components are proof instrumentation only: whether the convergence test
fired, and how many loop iterations were entered. -/
def Eloop (e M : ℝ) : ℕ → ℝ → ℝ × Bool × ℕ
  | 0, E => (E, false, 0)
  | n + 1, E =>
    let E_next := M + e * Real.sin E
    if |E_next - E| < PRECISION then (E_next, true, 1)
    else
      let r := Eloop e M n (Eupd e M E)
      (r.1, r.2.1, r.2.2 + 1)

/-- `Orbit::E`: initial estimate `M % (2.0*PI)`, then up to `MAX_ITER`
iterations of the loop. -/
def Orbit.E (orb : Orbit) (M : ℝ) : ℝ :=
  (Eloop orb.e M MAX_ITER (rrem M (2 * π))).1

/-- Instrumentation: whether `Orbit::E` exited through the convergence
test (`true`) or the iteration cap (`false`). -/
def Orbit.Econverged (orb : Orbit) (M : ℝ) : Bool :=
  (Eloop orb.e M MAX_ITER (rrem M (2 * π))).2.1

/-- Instrumentation: the number of loop iterations `Orbit::E` entered. -/
def Orbit.Esteps (orb : Orbit) (M : ℝ) : ℕ :=
  (Eloop orb.e M MAX_ITER (rrem M (2 * π))).2.2

/-- `Orbit::pos_elliptic`: the in-plane position
`(a*(E.cos()-e), b*E.sin(), 0.0)`. -/
def Orbit.pos_elliptic (orb : Orbit) (E : ℝ) : ℝ × ℝ × ℝ :=
  (orb.a * (Real.cos E - orb.e), orb.b * Real.sin E, 0)

/-- `Orbit::pos`: solve for `E`, take the in-plane position, then apply
`rot_z` by `w`, `rot_x` by `i`, `rot_z` by `o`, in that order. -/
def Orbit.pos (orb : Orbit) (M : ℝ) : ℝ × ℝ × ℝ :=
  rot_z (rot_x (rot_z (orb.pos_elliptic (orb.E M)) orb.w) orb.i) orb.o

/-- `Orbit::periapsis`: `(a - a*e)/2.0`. -/
def Orbit.periapsis (orb : Orbit) : ℝ := (orb.a - orb.a * orb.e) / 2

/-- `Orbit::apoapsis`: `a - periapsis()`. -/
def Orbit.apoapsis (orb : Orbit) : ℝ := orb.a - orb.periapsis

/-- Squared Euclidean norm of a 3D point, used to speak about orbital
distances. -/
def normSq (p : ℝ × ℝ × ℝ) : ℝ := p.1 ^ 2 + p.2.1 ^ 2 + p.2.2 ^ 2

/-- A direct write to the `pub` field `e` of `Orbit` (all fields of the
Rust struct are public, so any caller can perform this assignment,
leaving `a` and `b` untouched). -/
def setE (orb : Orbit) (enew : ℝ) : Orbit := { orb with e := enew }

theorem Orbit.new_e (e a i o w t0 : ℝ) : (Orbit.new e a i o w t0).e = e := rfl

theorem Orbit.new_a (e a i o w t0 : ℝ) : (Orbit.new e a i o w t0).a = a := rfl

theorem Orbit.new_b (e a i o w t0 : ℝ) :
    (Orbit.new e a i o w t0).b = a * Real.sqrt (1 - e * e) := rfl

theorem hypot_comm (x y : ℝ) : hypot x y = hypot y x := by
  unfold hypot; ring_nf

theorem hypot_abs_eq (x y : ℝ) : Complex.abs ⟨x, y⟩ = hypot x y := by
  rw [Complex.abs_apply, Complex.normSq_mk]; rfl

theorem hypot_mul_cos (x y θ : ℝ) :
    hypot x y * Real.cos (atan2 y x + θ) = x * Real.cos θ - y * Real.sin θ := by
  rcases eq_or_ne (⟨x, y⟩ : ℂ) 0 with h0 | h0
  · have hx : x = 0 := by have := congrArg Complex.re h0; simpa using this
    have hy : y = 0 := by have := congrArg Complex.im h0; simpa using this
    simp [hypot, hx, hy]
  · have habs : Complex.abs ⟨x, y⟩ = hypot x y := hypot_abs_eq x y
    have hne : hypot x y ≠ 0 := by rw [← habs]; exact Complex.abs.ne_zero h0
    have hc : Real.cos (atan2 y x) = x / hypot x y := by
      rw [atan2, Complex.cos_arg h0, habs]
    have hs : Real.sin (atan2 y x) = y / hypot x y := by
      rw [atan2, Complex.sin_arg, habs]
    rw [Real.cos_add, hc, hs]
    field_simp

theorem hypot_mul_sin (x y θ : ℝ) :
    hypot x y * Real.sin (atan2 y x + θ) = x * Real.sin θ + y * Real.cos θ := by
  rcases eq_or_ne (⟨x, y⟩ : ℂ) 0 with h0 | h0
  · have hx : x = 0 := by have := congrArg Complex.re h0; simpa using this
    have hy : y = 0 := by have := congrArg Complex.im h0; simpa using this
    simp [hypot, hx, hy]
  · have habs : Complex.abs ⟨x, y⟩ = hypot x y := hypot_abs_eq x y
    have hne : hypot x y ≠ 0 := by rw [← habs]; exact Complex.abs.ne_zero h0
    have hc : Real.cos (atan2 y x) = x / hypot x y := by
      rw [atan2, Complex.cos_arg h0, habs]
    have hs : Real.sin (atan2 y x) = y / hypot x y := by
      rw [atan2, Complex.sin_arg, habs]
    rw [Real.sin_add, hc, hs]
    field_simp
    ring

theorem rot_x_eq (p : ℝ × ℝ × ℝ) (θ : ℝ) :
    rot_x p θ = (p.1, p.2.1 * Real.cos θ - p.2.2 * Real.sin θ,
      p.2.1 * Real.sin θ + p.2.2 * Real.cos θ) := by
  unfold rot_x
  exact Prod.ext rfl (Prod.ext (hypot_mul_cos _ _ _) (hypot_mul_sin _ _ _))

theorem rot_y_eq (p : ℝ × ℝ × ℝ) (θ : ℝ) :
    rot_y p θ = (p.1 * Real.cos θ + p.2.2 * Real.sin θ, p.2.1,
      p.2.2 * Real.cos θ - p.1 * Real.sin θ) := by
  unfold rot_y
  refine Prod.ext ?_ (Prod.ext rfl ?_)
  · show hypot p.1 p.2.2 * Real.sin (atan2 p.1 p.2.2 + θ) = _
    rw [hypot_comm]
    rw [hypot_mul_sin p.2.2 p.1 θ]
    ring
  · show hypot p.1 p.2.2 * Real.cos (atan2 p.1 p.2.2 + θ) = _
    rw [hypot_comm]
    rw [hypot_mul_cos p.2.2 p.1 θ]

theorem rot_z_eq (p : ℝ × ℝ × ℝ) (θ : ℝ) :
    rot_z p θ = (p.1 * Real.cos θ - p.2.1 * Real.sin θ,
      p.1 * Real.sin θ + p.2.1 * Real.cos θ, p.2.2) := by
  unfold rot_z
  exact Prod.ext (hypot_mul_cos _ _ _) (Prod.ext (hypot_mul_sin _ _ _) rfl)

theorem rtrunc_eq_of_nonneg {r : ℝ} {n : ℤ} (hr : 0 ≤ r) (h0 : (n : ℝ) ≤ r)
    (h1 : r < (n : ℝ) + 1) : rtrunc r = n := by
  unfold rtrunc
  rw [if_pos hr]
  exact Int.floor_eq_iff.mpr ⟨h0, by push_cast; linarith⟩

theorem rrem_zero (y : ℝ) : rrem 0 y = 0 := by
  unfold rrem rtrunc
  simp

theorem rrem_small {M y : ℝ} (hy : 0 < y) (h : |M| < y) : rrem M y = M := by
  have htr : rtrunc (M / y) = 0 := by
    unfold rtrunc
    rcases le_or_lt 0 (M / y) with hd | hd
    · rw [if_pos hd]
      have : M / y < 1 := by
        rw [div_lt_one hy]
        exact lt_of_le_of_lt (le_abs_self M) h
      exact Int.floor_eq_iff.mpr ⟨by exact_mod_cast hd, by norm_num; linarith⟩
    · rw [if_neg (not_le.mpr hd)]
      have : (-1 : ℝ) < M / y := by
        have hM : -y < M := (abs_lt.mp h).1
        rw [lt_div_iff hy]
        linarith
      exact Int.ceil_eq_iff.mpr ⟨by push_cast; linarith, by exact_mod_cast hd.le⟩
  unfold rrem
  rw [htr]
  simp

theorem rrem_seven_twopi : rrem 7 (2 * π) = 7 - 2 * π := by
  have hpi0 : (0 : ℝ) < π := Real.pi_pos
  have hlb : (3.141592 : ℝ) < π := Real.pi_gt_d6
  have hub : π < 3.141593 := Real.pi_lt_d6
  have htr : rtrunc (7 / (2 * π)) = 1 := by
    apply rtrunc_eq_of_nonneg (by positivity)
    · rw [le_div_iff (by positivity)]
      push_cast
      linarith
    · rw [div_lt_iff (by positivity)]
      push_cast
      linarith
  unfold rrem
  rw [htr]
  push_cast
  ring

theorem rrem_twopi_fourteen : rrem (2 * π) 1.4 = 2 * π - 5.6 := by
  have hlb : (3.141592 : ℝ) < π := Real.pi_gt_d6
  have hub : π < 3.141593 := Real.pi_lt_d6
  have htr : rtrunc (2 * π / 1.4) = 4 := by
    apply rtrunc_eq_of_nonneg (by positivity)
    · rw [le_div_iff (by norm_num)]
      push_cast
      linarith
    · rw [div_lt_iff (by norm_num)]
      push_cast
      linarith
  unfold rrem
  rw [htr]
  push_cast
  ring_nf

theorem rrem_fiftysix_fourteen : rrem 5.6 1.4 = 0 := by
  have htr : rtrunc ((5.6 : ℝ) / 1.4) = 4 := by
    apply rtrunc_eq_of_nonneg (by norm_num)
    · norm_num
    · norm_num
  unfold rrem
  rw [htr]
  norm_num

theorem abs_sin_sub_sin (a b : ℝ) : |Real.sin a - Real.sin b| ≤ |a - b| := by
  rw [Real.sin_sub_sin]
  have h1 : |Real.sin ((a - b) / 2)| ≤ |(a - b) / 2| := Real.abs_sin_le_abs
  have h2 : |Real.cos ((a + b) / 2)| ≤ 1 := Real.abs_cos_le_one _
  calc |2 * Real.sin ((a - b) / 2) * Real.cos ((a + b) / 2)|
      = 2 * |Real.sin ((a - b) / 2)| * |Real.cos ((a + b) / 2)| := by
        rw [abs_mul, abs_mul, abs_two]
    _ ≤ 2 * |(a - b) / 2| * 1 := by
        apply mul_le_mul _ h2 (abs_nonneg _) (by positivity)
        linarith
    _ = |a - b| := by
        rw [mul_one, abs_div, abs_two]
        ring

/-- C8: each of `rot_x`, `rot_y`, `rot_z`, applied to any point and any
real angle, equals the standard right-handed rotation matrix about its
axis applied to the point; the polar-form implementation is algebraically
equivalent to the matrix form. -/
theorem rot_polar_eq_matrix (p : ℝ × ℝ × ℝ) (θ : ℝ) :
    rot_x p θ = (p.1, p.2.1 * Real.cos θ - p.2.2 * Real.sin θ,
        p.2.1 * Real.sin θ + p.2.2 * Real.cos θ) ∧
    rot_y p θ = (p.1 * Real.cos θ + p.2.2 * Real.sin θ, p.2.1,
        p.2.2 * Real.cos θ - p.1 * Real.sin θ) ∧
    rot_z p θ = (p.1 * Real.cos θ - p.2.1 * Real.sin θ,
        p.1 * Real.sin θ + p.2.1 * Real.cos θ, p.2.2) :=
  ⟨rot_x_eq p θ, rot_y_eq p θ, rot_z_eq p θ⟩

/-- C9: rotation about z is additive in the angle: composing two `rot_z`
calls equals a single `rot_z` by the sum of the angles, exactly, over the
real-number embedding. -/
theorem rot_z_additive (p : ℝ × ℝ × ℝ) (θ1 θ2 : ℝ) :
    rot_z (rot_z p θ1) θ2 = rot_z p (θ1 + θ2) := by
  rw [rot_z_eq p θ1, rot_z_eq, rot_z_eq, Real.cos_add, Real.sin_add]
  exact Prod.ext (by ring) (Prod.ext (by ring) rfl)

/-- C10: each rotation returns the coordinate along its own axis exactly
unchanged: `rot_x` passes through the first component, `rot_y` the
second, `rot_z` the third. -/
theorem rot_fixes_own_axis (p : ℝ × ℝ × ℝ) (θ : ℝ) :
    (rot_x p θ).1 = p.1 ∧ (rot_y p θ).2.1 = p.2.1 ∧ (rot_z p θ).2.2 = p.2.2 :=
  ⟨rfl, rfl, rfl⟩

/-- C5: `pos M` is exactly the in-plane point
`(a*(cos E - e), b*sin E, 0)` — with `E` the solver's result for `M` —
transformed by `rot_z` by `w`, then `rot_x` by `i`, then `rot_z` by `o`,
in that order. -/
theorem pos_eq_rotated_elliptic (orb : Orbit) (M : ℝ) :
    orb.pos M = rot_z (rot_x (rot_z
      (orb.a * (Real.cos (orb.E M) - orb.e), orb.b * Real.sin (orb.E M), 0)
      orb.w) orb.i) orb.o := rfl

theorem Eloop_steps_le (e M : ℝ) : ∀ (n : ℕ) (E : ℝ), (Eloop e M n E).2.2 ≤ n := by
  intro n
  induction n with
  | zero => intro E; simp [Eloop]
  | succ n ih =>
    intro E
    simp only [Eloop]
    by_cases h : |(M + e * Real.sin E) - E| < PRECISION
    · rw [if_pos h]
      exact Nat.succ_le_succ (Nat.zero_le n)
    · rw [if_neg h]
      exact Nat.succ_le_succ (ih _)

theorem Eloop_false_val (e M : ℝ) : ∀ (n : ℕ) (E : ℝ),
    (Eloop e M n E).2.1 = false → (Eloop e M n E).1 = (Eupd e M)^[n] E := by
  intro n
  induction n with
  | zero => intro E _; simp [Eloop]
  | succ n ih =>
    intro E hf
    simp only [Eloop] at hf ⊢
    by_cases h : |(M + e * Real.sin E) - E| < PRECISION
    · rw [if_pos h] at hf
      simp at hf
    · rw [if_neg h] at hf ⊢
      have hf2 : (Eloop e M n (Eupd e M E)).2.1 = false := by simpa using hf
      have := ih (Eupd e M E) hf2
      rw [Function.iterate_succ_apply]
      simpa using this

theorem Eloop_true_roundtrip (e M : ℝ) (he : 0 ≤ e) : ∀ (n : ℕ) (E : ℝ),
    (Eloop e M n E).2.1 = true →
    |(Eloop e M n E).1 - e * Real.sin ((Eloop e M n E).1) - M| ≤ e * PRECISION := by
  intro n
  induction n with
  | zero => intro E hf; simp [Eloop] at hf
  | succ n ih =>
    intro E hf
    simp only [Eloop] at hf ⊢
    by_cases h : |(M + e * Real.sin E) - E| < PRECISION
    · rw [if_pos h]
      show |(M + e * Real.sin E) - e * Real.sin (M + e * Real.sin E) - M| ≤ e * PRECISION
      have hls : |Real.sin E - Real.sin (M + e * Real.sin E)| ≤
          |E - (M + e * Real.sin E)| := abs_sin_sub_sin _ _
      have habs : |E - (M + e * Real.sin E)| ≤ PRECISION := by
        rw [abs_sub_comm]
        exact le_of_lt h
      have hrw : (M + e * Real.sin E) - e * Real.sin (M + e * Real.sin E) - M =
          e * (Real.sin E - Real.sin (M + e * Real.sin E)) := by ring
      rw [hrw, abs_mul, abs_of_nonneg he]
      exact mul_le_mul_of_nonneg_left (le_trans hls habs) he
    · rw [if_neg h] at hf ⊢
      have hf2 : (Eloop e M n (Eupd e M E)).2.1 = true := by simpa using hf
      simpa using ih (Eupd e M E) hf2

theorem Ediv_e0 (E : ℝ) : Ediv 0 E = 1 := by
  unfold Ediv
  ring

theorem Eupd_e0 (M E : ℝ) : Eupd 0 M E = E + rrem (M - E) 1.4 := by
  unfold Eupd
  rw [Ediv_e0]
  norm_num

theorem Eloop_succ (e M : ℝ) (n : ℕ) (E : ℝ) :
    Eloop e M (n + 1) E =
      if |(M + e * Real.sin E) - E| < PRECISION then (M + e * Real.sin E, true, 1)
      else ((Eloop e M n (Eupd e M E)).1, (Eloop e M n (Eupd e M E)).2.1,
        (Eloop e M n (Eupd e M E)).2.2 + 1) := by
  simp only [Eloop]

theorem Eloop_e0_stuck : ∀ n : ℕ, Eloop 0 7 n 1.4 = (1.4, false, n) := by
  intro n
  induction n with
  | zero => simp [Eloop]
  | succ n ih =>
    rw [Eloop_succ]
    have hcond : ¬ (|(7 : ℝ) + 0 * Real.sin 1.4 - 1.4| < PRECISION) := by
      have h56 : (7 : ℝ) + 0 * Real.sin 1.4 - 1.4 = 5.6 := by norm_num
      rw [h56, abs_of_pos (by norm_num), PRECISION]
      norm_num
    rw [if_neg hcond]
    have hupd : Eupd 0 7 1.4 = 1.4 := by
      rw [Eupd_e0]
      have h56 : (7 : ℝ) - 1.4 = 5.6 := by norm_num
      rw [h56, rrem_fiftysix_fourteen]
      norm_num
    rw [hupd, ih]

theorem Eloop_e0_M7 : Eloop 0 7 MAX_ITER (rrem 7 (2 * π)) = (1.4, false, 100) := by
  have h100 : MAX_ITER = 99 + 1 := rfl
  rw [h100, rrem_seven_twopi, Eloop_succ]
  have hlb : (3.141592 : ℝ) < π := Real.pi_gt_d6
  have h2pi : (7 : ℝ) + 0 * Real.sin (7 - 2 * π) - (7 - 2 * π) = 2 * π := by
    ring
  have hcond : ¬ (|(7 : ℝ) + 0 * Real.sin (7 - 2 * π) - (7 - 2 * π)| < PRECISION) := by
    rw [h2pi, abs_of_pos (by positivity)]
    rw [PRECISION]
    intro hlt
    norm_num at hlt
    linarith
  rw [if_neg hcond]
  have hupd : Eupd 0 7 (7 - 2 * π) = 1.4 := by
    rw [Eupd_e0]
    have hd : (7 : ℝ) - (7 - 2 * π) = 2 * π := by ring
    rw [hd, rrem_twopi_fourteen]
    ring_nf
  rw [hupd, Eloop_e0_stuck 99]

theorem orb0_E_M7 : (Orbit.new 0 1 0 0 0 0).E 7 = 1.4 := by
  show (Eloop 0 7 MAX_ITER (rrem 7 (2 * π))).1 = 1.4
  rw [Eloop_e0_M7]

theorem orb0_flag_M7 : (Orbit.new 0 1 0 0 0 0).Econverged 7 = false := by
  show (Eloop 0 7 MAX_ITER (rrem 7 (2 * π))).2.1 = false
  rw [Eloop_e0_M7]

theorem orb0_steps_M7 : (Orbit.new 0 1 0 0 0 0).Esteps 7 = 100 := by
  show (Eloop 0 7 MAX_ITER (rrem 7 (2 * π))).2.2 = 100
  rw [Eloop_e0_M7]

theorem Eloop_M0 (ec : ℝ) : Eloop ec 0 MAX_ITER 0 = (0, true, 1) := by
  have h100 : MAX_ITER = 99 + 1 := rfl
  rw [h100, Eloop_succ]
  have hcond : |(0 : ℝ) + ec * Real.sin 0 - 0| < PRECISION := by
    rw [Real.sin_zero, mul_zero, add_zero, sub_zero, abs_zero, PRECISION]
    norm_num
  rw [if_pos hcond]
  rw [Real.sin_zero, mul_zero, add_zero]

theorem new_Econverged_M0 (ec a i o w t0 : ℝ) :
    (Orbit.new ec a i o w t0).Econverged 0 = true := by
  show (Eloop ec 0 MAX_ITER (rrem 0 (2 * π))).2.1 = true
  rw [rrem_zero, Eloop_M0]

/-- C1 (amended): for every eccentricity `e ∈ [0, 0.99]` and mean anomaly
`M ∈ [0, 2π)`, whenever the solver exits through its convergence test the
returned `E` satisfies the Kepler round-trip `|E - e*sin E - M % 2π| < 1e-9`.
(The unconditional claim fails: see `kepler_roundtrip_counterexample`.) -/
theorem kepler_roundtrip_of_converged (orb : Orbit) (M : ℝ)
    (h0 : 0 ≤ orb.e) (h1 : orb.e ≤ 0.99) (hM0 : 0 ≤ M) (hM1 : M < 2 * π)
    (hc : orb.Econverged M = true) :
    |orb.E M - orb.e * Real.sin (orb.E M) - rrem M (2 * π)| < 1e-9 := by
  have hr : rrem M (2 * π) = M := rrem_small (by positivity) (by rwa [abs_of_nonneg hM0])
  rw [hr]
  have hb := Eloop_true_roundtrip orb.e M h0 MAX_ITER (rrem M (2 * π)) hc
  have h2 : orb.e * PRECISION ≤ 0.99 * PRECISION :=
    mul_le_mul_of_nonneg_right h1 (by rw [PRECISION]; norm_num)
  have h3 : (0.99 : ℝ) * PRECISION < 1e-9 := by rw [PRECISION]; norm_num
  show |(Eloop orb.e M MAX_ITER (rrem M (2 * π))).1 - orb.e *
    Real.sin ((Eloop orb.e M MAX_ITER (rrem M (2 * π))).1) - M| < 1e-9
  linarith [hb]

/-- Witness for C1's theorem: `e = 0.5`, `M = 0` converges at once and the
round-trip error is below the tolerance. -/
theorem kepler_roundtrip_witness :
    0 ≤ (Orbit.new 0.5 1 0 0 0 0).e ∧ (Orbit.new 0.5 1 0 0 0 0).e ≤ 0.99 ∧
    (0 : ℝ) ≤ 0 ∧ (0 : ℝ) < 2 * π ∧
    (Orbit.new 0.5 1 0 0 0 0).Econverged 0 = true ∧
    |(Orbit.new 0.5 1 0 0 0 0).E 0 - (Orbit.new 0.5 1 0 0 0 0).e *
      Real.sin ((Orbit.new 0.5 1 0 0 0 0).E 0) - rrem 0 (2 * π)| < 1e-9 := by
  have he : (0 : ℝ) ≤ (Orbit.new 0.5 1 0 0 0 0).e := by rw [Orbit.new_e]; norm_num
  have he2 : (Orbit.new 0.5 1 0 0 0 0).e ≤ 0.99 := by rw [Orbit.new_e]; norm_num
  have hM1 : (0 : ℝ) < 2 * π := by positivity
  have hc := new_Econverged_M0 0.5 1 0 0 0 0
  exact ⟨he, he2, le_refl 0, hM1, hc,
    kepler_roundtrip_of_converged _ _ he he2 (le_refl 0) hM1 hc⟩

/-- Counterexample to C1 as stated: at `e = 0`, `M = 7` the solver never
converges (it gets stuck at `E = 1.4`) and the round-trip error exceeds
`1e-9` by nine orders of magnitude. -/
theorem kepler_roundtrip_counterexample :
    1e-9 < |(Orbit.new 0 1 0 0 0 0).E 7 - (Orbit.new 0 1 0 0 0 0).e *
      Real.sin ((Orbit.new 0 1 0 0 0 0).E 7) - rrem 7 (2 * π)| := by
  rw [orb0_E_M7, Orbit.new_e, rrem_seven_twopi]
  have hlb : (3.141592 : ℝ) < π := Real.pi_gt_d6
  have hval : (1.4 : ℝ) - 0 * Real.sin 1.4 - (7 - 2 * π) = 2 * π - 5.6 := by ring
  rw [hval, abs_of_pos (by linarith)]
  linarith

/-- C2: for every `e ∈ [0,1)` and every real `M` the solver performs at
most `MAX_ITER = 100` iterations, and the divisor `1 - e*cos E` of the
Newton-style step is strictly positive (so never zero); over the
real-number embedding the returned `E` is therefore a well-defined real
(no NaN/infinity can arise). -/
theorem kepler_bounded (orb : Orbit) (M : ℝ) (h0 : 0 ≤ orb.e) (h1 : orb.e < 1) :
    orb.Esteps M ≤ MAX_ITER ∧ ∀ E : ℝ, 0 < Ediv orb.e E := by
  refine ⟨Eloop_steps_le orb.e M MAX_ITER (rrem M (2 * π)), ?_⟩
  intro E
  unfold Ediv
  nlinarith [Real.cos_le_one E, Real.neg_one_le_cos E,
    mul_le_mul_of_nonneg_left (Real.cos_le_one E) h0]

/-- Witness for C2's theorem at `e = 0.9`, `M = 3`. -/
theorem kepler_bounded_witness :
    0 ≤ (Orbit.new 0.9 2 0 0 0 0).e ∧ (Orbit.new 0.9 2 0 0 0 0).e < 1 ∧
    ((Orbit.new 0.9 2 0 0 0 0).Esteps 3 ≤ MAX_ITER ∧
      ∀ E : ℝ, 0 < Ediv (Orbit.new 0.9 2 0 0 0 0).e E) := by
  have h0 : (0 : ℝ) ≤ (Orbit.new 0.9 2 0 0 0 0).e := by rw [Orbit.new_e]; norm_num
  have h1 : (Orbit.new 0.9 2 0 0 0 0).e < 1 := by rw [Orbit.new_e]; norm_num
  exact ⟨h0, h1, kepler_bounded _ 3 h0 h1⟩

/-- C3 (amended): if the convergence test never fires within the
100-iteration cap, the solver returns the current iterate after the
100th damped update — the 100-fold iterate of `Eupd` on the initial
estimate `M % 2π` — not the last fixed-point candidate `E_next`
(see `kepler_nonconv_counterexample`); no error is signalled. -/
theorem kepler_nonconv_returns_iterate (orb : Orbit) (M : ℝ)
    (h : orb.Econverged M = false) :
    orb.E M = (Eupd orb.e M)^[MAX_ITER] (rrem M (2 * π)) :=
  Eloop_false_val orb.e M MAX_ITER (rrem M (2 * π)) h

/-- Witness for C3's theorem: at `e = 0`, `M = 7` the cap is hit and the
result is the 100-fold `Eupd` iterate of the initial estimate. -/
theorem kepler_nonconv_witness :
    (Orbit.new 0 1 0 0 0 0).Econverged 7 = false ∧
    (Orbit.new 0 1 0 0 0 0).E 7 =
      (Eupd (Orbit.new 0 1 0 0 0 0).e 7)^[MAX_ITER] (rrem 7 (2 * π)) :=
  ⟨orb0_flag_M7, kepler_nonconv_returns_iterate _ 7 orb0_flag_M7⟩

/-- Counterexample to C3 as stated: at `e = 0`, `M = 7` convergence never
happens, every fixed-point candidate `E_next = M + e*sin E` equals `7`
(in particular the last one, computed at the final iterate `1.4`), yet
the solver returns `1.4`, not `7`. -/
theorem kepler_nonconv_counterexample :
    (Orbit.new 0 1 0 0 0 0).Econverged 7 = false ∧
    (Orbit.new 0 1 0 0 0 0).E 7 = 1.4 ∧
    7 + (Orbit.new 0 1 0 0 0 0).e * Real.sin 1.4 = 7 ∧ (1.4 : ℝ) ≠ 7 := by
  refine ⟨orb0_flag_M7, orb0_E_M7, ?_, by norm_num⟩
  rw [Orbit.new_e]
  norm_num

/-- C4 (amended): for `e = 0` and every `M` with `|M| < 2π` (so that
`M % 2π = M`), the solver returns `E = M % 2π = M` and converges in its
first iteration.  (For `|M| ≥ 2π` this fails: see
`kepler_e0_counterexample`.) -/
theorem kepler_e0_small (a i o w t0 M : ℝ) (h : |M| < 2 * π) :
    (Orbit.new 0 a i o w t0).E M = M ∧
    (Orbit.new 0 a i o w t0).Esteps M = 1 ∧ rrem M (2 * π) = M := by
  have hr : rrem M (2 * π) = M := rrem_small (by positivity) h
  have hl : Eloop 0 M MAX_ITER M = (M, true, 1) := by
    have h100 : MAX_ITER = 99 + 1 := rfl
    rw [h100, Eloop_succ]
    have hcond : |(M + 0 * Real.sin M) - M| < PRECISION := by
      have hz : (M + 0 * Real.sin M) - M = 0 := by ring
      rw [hz, abs_zero, PRECISION]
      norm_num
    rw [if_pos hcond]
    norm_num
  refine ⟨?_, ?_, hr⟩
  · show (Eloop 0 M MAX_ITER (rrem M (2 * π))).1 = M
    rw [hr, hl]
  · show (Eloop 0 M MAX_ITER (rrem M (2 * π))).2.2 = 1
    rw [hr, hl]

/-- Witness for C4's theorem at `M = 1`. -/
theorem kepler_e0_small_witness :
    |(1 : ℝ)| < 2 * π ∧ ((Orbit.new 0 2 3 4 5 6).E 1 = 1 ∧
      (Orbit.new 0 2 3 4 5 6).Esteps 1 = 1 ∧ rrem 1 (2 * π) = 1) := by
  have h : |(1 : ℝ)| < 2 * π := by
    rw [abs_one]
    have h3 : (3 : ℝ) < π := Real.pi_gt_three
    linarith
  exact ⟨h, kepler_e0_small 2 3 4 5 6 1 h⟩

/-- Counterexample to C4 as stated: at `e = 0`, `M = 7` the solver does
not return `M % 2π = 7 - 2π` (it returns `1.4`), and it runs all 100
iterations instead of one. -/
theorem kepler_e0_counterexample :
    (Orbit.new 0 1 0 0 0 0).E 7 ≠ rrem 7 (2 * π) ∧
    (Orbit.new 0 1 0 0 0 0).Esteps 7 ≠ 1 := by
  constructor
  · rw [orb0_E_M7, rrem_seven_twopi]
    intro heq
    have h3 : (3 : ℝ) < π := Real.pi_gt_three
    linarith [heq]
  · rw [orb0_steps_M7]
    norm_num

theorem new_half_pos_elliptic (E : ℝ) :
    (Orbit.new 0.5 1 0 0 0 0).pos_elliptic E =
      (Real.cos E - 0.5, Real.sqrt 0.75 * Real.sin E, 0) := by
  unfold Orbit.pos_elliptic
  rw [Orbit.new_a, Orbit.new_e, Orbit.new_b, one_mul, one_mul]
  norm_num

/-- C6 (code bug): for the orbit `e = 0.5`, `a = 1` the code's
`periapsis()` is `1/4` and `apoapsis()` is `3/4`, yet every in-plane
point of the orbit is at squared distance at least `(1/2)^2` from the
origin, the minimum `(1/2)^2` being attained at `E = 0` and the point at
`E = π` lying at squared distance `(3/2)^2`: the returned values are half
the true nearest/farthest orbital distances `a(1-e)` and `a(1+e)`. -/
theorem periapsis_apoapsis_not_extremal :
    (Orbit.new 0.5 1 0 0 0 0).periapsis = 1 / 4 ∧
    (Orbit.new 0.5 1 0 0 0 0).apoapsis = 3 / 4 ∧
    normSq ((Orbit.new 0.5 1 0 0 0 0).pos_elliptic 0) = (1 / 2) ^ 2 ∧
    normSq ((Orbit.new 0.5 1 0 0 0 0).pos_elliptic π) = (3 / 2) ^ 2 ∧
    ∀ E : ℝ, (1 / 2) ^ 2 ≤ normSq ((Orbit.new 0.5 1 0 0 0 0).pos_elliptic E) := by
  have hbsq : (Real.sqrt 0.75) ^ 2 = 0.75 := Real.sq_sqrt (by norm_num)
  have hper : (Orbit.new 0.5 1 0 0 0 0).periapsis = 1 / 4 := by
    unfold Orbit.periapsis
    rw [Orbit.new_a, Orbit.new_e]
    norm_num
  refine ⟨hper, ?_, ?_, ?_, ?_⟩
  · unfold Orbit.apoapsis
    rw [hper, Orbit.new_a]
    norm_num
  · rw [new_half_pos_elliptic 0]
    unfold normSq
    simp only [Real.cos_zero, Real.sin_zero, mul_zero]
    norm_num
  · rw [new_half_pos_elliptic π]
    unfold normSq
    simp only [Real.cos_pi, Real.sin_pi, mul_zero]
    norm_num
  · intro E
    rw [new_half_pos_elliptic E]
    unfold normSq
    simp only []
    have hc1 := Real.cos_le_one E
    have hsc := Real.sin_sq_add_cos_sq E
    have hy : (Real.sqrt 0.75 * Real.sin E) ^ 2 = 0.75 * Real.sin E ^ 2 := by
      rw [mul_pow, hbsq]
    nlinarith [sq_nonneg (Real.cos E - 1)]

/-- Counterexample to C7 as stated: all fields of the Rust `Orbit` struct
are `pub`, so a caller can overwrite `e` alone (modelled by `setE`);
after `setE orb 0.5` on the orbit built with `e = 0`, `b` no longer
equals `a*sqrt(1-e²)`. -/
theorem setE_breaks_invariant :
    (setE (Orbit.new 0 1 0 0 0 0) 0.5).b ≠
      (setE (Orbit.new 0 1 0 0 0 0) 0.5).a *
        Real.sqrt (1 - (setE (Orbit.new 0 1 0 0 0 0) 0.5).e *
          (setE (Orbit.new 0 1 0 0 0 0) 0.5).e) := by
  have hb : (setE (Orbit.new 0 1 0 0 0 0) 0.5).b = 1 := by
    show (Orbit.new 0 1 0 0 0 0).b = 1
    rw [Orbit.new_b]
    norm_num
  have ha : (setE (Orbit.new 0 1 0 0 0 0) 0.5).a = 1 := rfl
  have he : (setE (Orbit.new 0 1 0 0 0 0) 0.5).e = 0.5 := rfl
  rw [hb, ha, he, one_mul]
  intro heq
  have h75 : (Real.sqrt (1 - 0.5 * 0.5)) ^ 2 = 0.75 := by
    rw [Real.sq_sqrt (by norm_num)]
    norm_num
  rw [← heq] at h75
  norm_num at h75

/-- C7 (amended): the constructor establishes the invariant
`b = a*sqrt(1-e²)`, and the module itself never mutates an orbit — every
operation is a pure function of the immutable value — but the invariant
is not enforced against direct writes to the public fields
(see `setE_breaks_invariant`). -/
theorem orbit_new_invariant (e a i o w t0 : ℝ) :
    (Orbit.new e a i o w t0).b = (Orbit.new e a i o w t0).a *
      Real.sqrt (1 - (Orbit.new e a i o w t0).e * (Orbit.new e a i o w t0).e) := rfl
